import Mathlib

/-
Shallow embedding of the unixfs DAG-builder helper
(importer/helpers/dagbuilder.go): the one-chunk lookahead buffer over a
fallible chunk source (prepareNext, Done, Next), leaf construction
(NewLeaf, NewUnixfsNode, newUnixfsBlock) and the fanout-bounded layer
filling loop (FillNodeLayer, GetNextDataNode).

The chunk source (an external splitter) is modelled as a list of pull
results; pulling from an empty list yields the end-of-stream signal
(nil data, EOF), matching a drained Go splitter that keeps returning
(nil, io.EOF). Byte slices are Option (List Nat): none models a nil Go
slice, some [] a non-nil empty slice — the code distinguishes them.
-/

namespace DagBuilder

/-- A byte string, one Nat per byte. -/
abbrev Bytes := List Nat

/-- Go error values that reach this code: io.EOF, the package's
ErrSizeLimitExceeded, and arbitrary other read failures. -/
inductive GoErr where
  | eof
  | sizeLimitExceeded
  | other (code : Nat)
deriving DecidableEq, Repr

/-- One result of `spl.NextBytes()`: a possibly-nil byte slice and a
possibly-nil error. -/
structure PullResult where
  data : Option Bytes
  err : Option GoErr
deriving DecidableEq, Repr

/-- Modelled from the spec: the unixfs FSNode type tag (TRaw for a raw
data block, TFile for a file); the unixfs package is not under src. -/
inductive FSNodeType where
  | TRaw
  | TFile
deriving DecidableEq, Repr

/-- Modelled from the spec: an ft.FSNode carries a type tag and an
optional data payload (nil until SetData is called). -/
structure FSNode where
  typ : FSNodeType
  fsdata : Option Bytes
deriving DecidableEq, Repr

/-- Modelled from the spec: a UnixfsNode is either a raw leaf holding the
chunk bytes directly, or a protobuf node with a unixfs envelope and an
ordered list of children; helpers.go is not under src. -/
inductive UnixfsNode where
  | raw (data : Option Bytes)
  | proto (ufmt : FSNode) (children : List UnixfsNode)
deriving Repr

/-- The DagBuilderHelper state: the not-yet-pulled remainder of the chunk
source, the sticky receive error, the single-slot lookahead buffer
nextData, and the configuration fields. blockSizeLimit models the
package-level BlockSizeLimit constant (helpers.go, not under src) as a
configured limit so concrete examples can instantiate it. cidPrefix
models the optional CID prefix; its only effect here is selecting the
NewRawNodeWPrefix branch. -/
structure DBH where
  source : List PullResult
  recvdErr : Option GoErr
  rawLeaves : Bool
  nextData : Option Bytes
  maxlinks : Nat
  cidPrefix : Option Unit
  blockSizeLimit : Nat
deriving DecidableEq, Repr

/-- One call to `spl.NextBytes()`: take the next pull result, or signal
end of stream with (nil, io.EOF) once the source is drained. -/
def pull : List PullResult → PullResult × List PullResult
  | [] => (⟨none, some GoErr.eof⟩, [])
  | r :: rest => (r, rest)

/-- prepareNext: if data or an error is already waiting, do nothing;
otherwise pull once from the splitter and translate io.EOF into no
error (end of stream is not an error). -/
def prepareNext (db : DBH) : DBH :=
  if db.nextData.isSome || db.recvdErr.isSome then db
  else
    let (r, rest) := pull db.source
    { db with
        source := rest
        nextData := r.data
        recvdErr := if r.err = some GoErr.eof then none else r.err }

/-- Done: refill the slot if needed, then report false while an error is
pending and otherwise whether the buffered data slot is empty. Returns
the updated helper state alongside the boolean. -/
def Done (db : DBH) : Bool × DBH :=
  let db1 := prepareNext db
  ((if db1.recvdErr.isSome then false else db1.nextData.isNone), db1)

/-- Next: refill the slot if needed, clear the buffered data slot, and
return the pending error if any, otherwise the buffered chunk. The
receive error field is not cleared on return. -/
def Next (db : DBH) : Option Bytes × Option GoErr × DBH :=
  let db1 := prepareNext db
  let d := db1.nextData
  let db2 := { db1 with nextData := none }
  if db2.recvdErr.isSome then (none, db2.recvdErr, db2)
  else (d, none, db2)

/-- NewUnixfsNode: a fresh protobuf node with unixfs type TFile, no data
and no children (SetPrefix only affects content addressing, outside this
model). -/
def NewUnixfsNode (db : DBH) : UnixfsNode :=
  UnixfsNode.proto ⟨FSNodeType.TFile, none⟩ []

/-- newUnixfsBlock: a fresh protobuf node with unixfs type TRaw, no data
and no children. -/
def newUnixfsBlock (db : DBH) : UnixfsNode :=
  UnixfsNode.proto ⟨FSNodeType.TRaw, none⟩ []

/-- Modelled from the spec: UnixfsNode.SetData stores the bytes in the
unixfs envelope (helpers.go is not under src). -/
def SetData (n : UnixfsNode) (data : Bytes) : UnixfsNode :=
  match n with
  | UnixfsNode.proto f cs => UnixfsNode.proto ⟨f.typ, some data⟩ cs
  | UnixfsNode.raw d => UnixfsNode.raw d

/-- dag.NewRawNode: a raw leaf holding exactly the given bytes. -/
def NewRawNode (data : Option Bytes) : UnixfsNode :=
  UnixfsNode.raw data

/-- Modelled from the spec: dag.NewRawNodeWPrefix builds the same raw
leaf tagged with the configured prefix; the prefix only affects content
addressing, so it is modelled as always succeeding. -/
def NewRawNodeWPrefix (data : Option Bytes) (p : Unit) : Except GoErr UnixfsNode :=
  Except.ok (UnixfsNode.raw data)

/-- Length of a possibly-nil Go byte slice: len(nil) is 0. -/
def dataLen : Option Bytes → Nat
  | none => 0
  | some d => d.length

/-- NewLeaf: reject oversized chunks; in raw-leaves mode build a raw
node (with or without prefix); otherwise nil data yields a TFile node
with no payload and present data yields a TRaw node carrying the bytes. -/
def NewLeaf (db : DBH) (data : Option Bytes) : Except GoErr UnixfsNode :=
  if dataLen data > db.blockSizeLimit then
    Except.error GoErr.sizeLimitExceeded
  else if db.rawLeaves then
    match db.cidPrefix with
    | none => Except.ok (NewRawNode data)
    | some p =>
      match NewRawNodeWPrefix data p with
      | Except.error e => Except.error e
      | Except.ok rawnode => Except.ok rawnode
  else if data = none then
    Except.ok (NewUnixfsNode db)
  else
    Except.ok (SetData (newUnixfsBlock db) (data.getD []))

/-- GetNextDataNode: take the next chunk; an error propagates, nil data
signals clean end of stream, otherwise the chunk becomes a leaf via
NewLeaf. -/
def GetNextDataNode (db : DBH) : Option UnixfsNode × Option GoErr × DBH :=
  match Next db with
  | (data, some e, db1) => (none, some e, db1)
  | (none, none, db1) => (none, none, db1)
  | (some d, none, db1) =>
    match NewLeaf db1 (some d) with
    | Except.error e => (none, some e, db1)
    | Except.ok leaf => (some leaf, none, db1)

/-- Modelled from the spec: NumChildren is the length of the node's
ordered child-reference list (helpers.go is not under src). -/
def NumChildren : UnixfsNode → Nat
  | UnixfsNode.raw _ => 0
  | UnixfsNode.proto _ cs => cs.length

/-- Modelled from the spec: AddChild appends one child to the node's
ordered child list (content addressing and batching are outside this
model); a missing child or a raw parent leaves the node unchanged, both
unreachable from FillNodeLayer. -/
def AddChild (node : UnixfsNode) (child : Option UnixfsNode) : UnixfsNode :=
  match node, child with
  | UnixfsNode.proto f cs, some c => UnixfsNode.proto f (cs ++ [c])
  | n, _ => n

/-- Termination measure for the layer-filling loop: two per unpulled
source element, plus one when a chunk is buffered. -/
def lookMeasure (db : DBH) : Nat :=
  2 * db.source.length + (if db.nextData.isSome then 1 else 0)

theorem prepareNext_busy (db : DBH)
    (h : (db.nextData.isSome || db.recvdErr.isSome) = true) :
    prepareNext db = db := by
  simp only [prepareNext, h, if_true]

theorem prepareNext_idle_nil (db : DBH) (hd : db.nextData = none)
    (he : db.recvdErr = none) (hs : db.source = []) :
    prepareNext db = db := by
  cases db
  simp_all [prepareNext, pull]

theorem prepareNext_idle_cons (db : DBH) (r : PullResult) (rest : List PullResult)
    (hd : db.nextData = none) (he : db.recvdErr = none)
    (hs : db.source = r :: rest) :
    prepareNext db =
      { db with
          source := rest
          nextData := r.data
          recvdErr := if r.err = some GoErr.eof then none else r.err } := by
  simp [prepareNext, hd, he, hs, pull]

theorem Done_snd (db : DBH) : (Done db).2 = prepareNext db := rfl

theorem Done_fst (db : DBH) :
    (Done db).1 =
      if (prepareNext db).recvdErr.isSome then false
      else (prepareNext db).nextData.isNone := rfl

theorem Next_of_err (db : DBH) (e : GoErr)
    (he : (prepareNext db).recvdErr = some e) :
    Next db = (none, some e, { prepareNext db with nextData := none }) := by
  simp [Next, he]

theorem Next_of_ok (db : DBH) (he : (prepareNext db).recvdErr = none) :
    Next db = ((prepareNext db).nextData, none,
      { prepareNext db with nextData := none }) := by
  simp [Next, he]

theorem getNextDataNode_no_err (db : DBH) (child : Option UnixfsNode) (db2 : DBH)
    (h : GetNextDataNode db = (child, none, db2)) :
    (prepareNext db).recvdErr = none ∧
      db2 = { prepareNext db with nextData := none } := by
  rcases he : (prepareNext db).recvdErr with _ | e
  · refine ⟨rfl, ?_⟩
    rcases hd : (prepareNext db).nextData with _ | d
    · simp only [GetNextDataNode, Next_of_ok db he, hd] at h
      simp only [Prod.mk.injEq] at h
      exact h.2.2.symm
    · simp only [GetNextDataNode, Next_of_ok db he, hd] at h
      split at h <;> simp only [Prod.mk.injEq] at h
      · exact absurd h.2.1 (by simp)
      · exact h.2.2.symm
  · simp only [GetNextDataNode, Next_of_err db e he] at h
    simp only [Prod.mk.injEq] at h
    exact absurd h.2.1 (by simp)

theorem fill_measure_lt (db db1 db2 : DBH) (child : Option UnixfsNode)
    (h1 : Done db = (false, db1))
    (h2 : GetNextDataNode db1 = (child, none, db2)) :
    lookMeasure db2 < lookMeasure db := by
  have hdb1 : db1 = prepareNext db := by
    have hsnd := Done_snd db
    rw [h1] at hsnd
    exact hsnd
  obtain ⟨he2, hdb2⟩ := getNextDataNode_no_err db1 child db2 h2
  -- db1 cannot itself hold an error: prepareNext would be the identity
  -- and the layer filler would have received that error instead.
  have he1 : db1.recvdErr = none := by
    rcases hx : db1.recvdErr with _ | e
    · rfl
    · rw [prepareNext_busy db1 (by simp [hx])] at he2
      rw [hx] at he2
      exact absurd he2 (by simp)
  -- Done returned false, so with no error the buffered slot is full.
  obtain ⟨d, hd1⟩ : ∃ d, db1.nextData = some d := by
    have := Done_fst db
    rw [h1] at this
    rw [← hdb1, he1] at this
    simp only [Option.isSome_none, Bool.false_eq_true, if_false] at this
    rcases hx : db1.nextData with _ | d
    · rw [hx] at this
      simp at this
    · exact ⟨d, rfl⟩
  have hpp : prepareNext db1 = db1 := prepareNext_busy db1 (by simp [hd1])
  rw [hpp] at hdb2
  subst hdb2
  -- Compare the measures through the single prepareNext step at db.
  by_cases hg : (db.nextData.isSome || db.recvdErr.isSome) = true
  · rw [prepareNext_busy db hg] at hdb1
    subst hdb1
    simp [lookMeasure, hd1]
  · have hdn : db.nextData = none := by
      rcases hx : db.nextData with _ | d
      · rfl
      · simp [hx] at hg
    have hde : db.recvdErr = none := by
      rcases hx : db.recvdErr with _ | e
      · rfl
      · simp [hx] at hg
    rcases hs : db.source with _ | ⟨r, rest⟩
    · rw [prepareNext_idle_nil db hdn hde hs] at hdb1
      rw [hdb1] at hd1
      rw [hdn] at hd1
      exact absurd hd1 (by simp)
    · rw [prepareNext_idle_cons db r rest hdn hde hs] at hdb1
      subst hdb1
      simp [lookMeasure, hd1, hs, hdn]

/-- FillNodeLayer: while the node has room and the stream is not done,
take the next data node and append it as a child; any error aborts and
is returned with the node left as already filled. -/
def FillNodeLayer (db : DBH) (node : UnixfsNode) : Option GoErr × UnixfsNode × DBH :=
  if NumChildren node < db.maxlinks then
    match h1 : Done db with
    | (true, db1) => (none, node, db1)
    | (false, db1) =>
      match h2 : GetNextDataNode db1 with
      | (child, some e, db2) => (some e, node, db2)
      | (child, none, db2) => FillNodeLayer db2 (AddChild node child)
  else (none, node, db)
termination_by lookMeasure db
decreasing_by exact fill_measure_lt db db1 db2 child h1 h2

/-
Basic facts about the state transitions, shared by the claim theorems.
-/

@[simp]
theorem prepareNext_maxlinks (db : DBH) :
    (prepareNext db).maxlinks = db.maxlinks := by
  unfold prepareNext
  split <;> rfl

@[simp]
theorem prepareNext_rawLeaves (db : DBH) :
    (prepareNext db).rawLeaves = db.rawLeaves := by
  unfold prepareNext
  split <;> rfl

@[simp]
theorem prepareNext_cidPrefix (db : DBH) :
    (prepareNext db).cidPrefix = db.cidPrefix := by
  unfold prepareNext
  split <;> rfl

@[simp]
theorem prepareNext_blockSizeLimit (db : DBH) :
    (prepareNext db).blockSizeLimit = db.blockSizeLimit := by
  unfold prepareNext
  split <;> rfl

theorem dbh_clear_self (db : DBH) (h : db.nextData = none) :
    { db with nextData := none } = db := by
  cases db
  simp_all

theorem done_snd_eq (db db1 : DBH) (b : Bool) (h : Done db = (b, db1)) :
    db1 = prepareNext db := by
  have hsnd := Done_snd db
  rw [h] at hsnd
  exact hsnd

theorem numChildren_addChild (node : UnixfsNode) (child : Option UnixfsNode) :
    NumChildren (AddChild node child) ≤ NumChildren node + 1 := by
  cases node <;> cases child <;> simp [AddChild, NumChildren]

theorem fill_step_maxlinks (db db1 db2 : DBH) (child : Option UnixfsNode)
    (h1 : Done db = (false, db1))
    (h2 : GetNextDataNode db1 = (child, none, db2)) :
    db2.maxlinks = db.maxlinks := by
  obtain ⟨-, hd2⟩ := getNextDataNode_no_err db1 child db2 h2
  have hdb1 := done_snd_eq db db1 false h1
  rw [hd2, hdb1]
  simp

theorem fillNodeLayer_eq_done (db : DBH) (node : UnixfsNode) (db1 : DBH)
    (hlt : NumChildren node < db.maxlinks) (h1 : Done db = (true, db1)) :
    FillNodeLayer db node = (none, node, db1) := by
  rw [FillNodeLayer.eq_def, if_pos hlt]
  split
  · next x heq =>
    have hx := h1.symm.trans heq
    injection hx with hb hd
    rw [hd]
  · next x heq =>
    have hx := h1.symm.trans heq
    injection hx with hb hd
    cases hb

theorem fillNodeLayer_eq_err (db : DBH) (node : UnixfsNode) (db1 : DBH)
    (child : Option UnixfsNode) (e : GoErr) (db2 : DBH)
    (hlt : NumChildren node < db.maxlinks) (h1 : Done db = (false, db1))
    (h2 : GetNextDataNode db1 = (child, some e, db2)) :
    FillNodeLayer db node = (some e, node, db2) := by
  rw [FillNodeLayer.eq_def, if_pos hlt]
  split
  · next x heq =>
    have hx := h1.symm.trans heq
    injection hx with hb hd
    cases hb
  · next x heq =>
    have hx := h1.symm.trans heq
    injection hx with hb hd
    subst hd
    split
    · next c e2 d2 heq2 =>
      have hx2 := h2.symm.trans heq2
      injection hx2 with hc hx2
      injection hx2 with he hd2
      injection he with he
      rw [he, hd2]
    · next c d2 heq2 =>
      have hx2 := h2.symm.trans heq2
      injection hx2 with hc hx2
      injection hx2 with he hd2
      cases he

theorem fillNodeLayer_eq_step (db : DBH) (node : UnixfsNode) (db1 : DBH)
    (child : Option UnixfsNode) (db2 : DBH)
    (hlt : NumChildren node < db.maxlinks) (h1 : Done db = (false, db1))
    (h2 : GetNextDataNode db1 = (child, none, db2)) :
    FillNodeLayer db node = FillNodeLayer db2 (AddChild node child) := by
  rw [FillNodeLayer.eq_def, if_pos hlt]
  split
  · next x heq =>
    have hx := h1.symm.trans heq
    injection hx with hb hd
    cases hb
  · next x heq =>
    have hx := h1.symm.trans heq
    injection hx with hb hd
    subst hd
    split
    · next c e2 d2 heq2 =>
      have hx2 := h2.symm.trans heq2
      injection hx2 with hc hx2
      injection hx2 with he hd2
      cases he
    · next c d2 heq2 =>
      have hx2 := h2.symm.trans heq2
      injection hx2 with hc hx2
      injection hx2 with he hd2
      rw [hc, hd2]

theorem fillNodeLayer_eq_full (db : DBH) (node : UnixfsNode)
    (h : ¬ NumChildren node < db.maxlinks) :
    FillNodeLayer db node = (none, node, db) := by
  rw [FillNodeLayer.eq_def, if_neg h]

/-- C1: an internal node that enters FillNodeLayer with at most maxlinks
children still holds at most maxlinks children when FillNodeLayer
returns, on the error path as well as the nil path; no child is ever
appended beyond the cap. -/
theorem fillNodeLayer_cap_preserved (db : DBH) (node : UnixfsNode)
    (h : NumChildren node ≤ db.maxlinks) :
    NumChildren (FillNodeLayer db node).2.1 ≤ db.maxlinks := by
  induction db, node using FillNodeLayer.induct with
  | case1 db node hlt db1 h1 =>
    rw [fillNodeLayer_eq_done db node db1 hlt h1]
    exact h
  | case2 db node hlt db1 h1 child e db2 h2 =>
    rw [fillNodeLayer_eq_err db node db1 child e db2 hlt h1 h2]
    exact h
  | case3 db node hlt db1 h1 child db2 h2 ih =>
    rw [fillNodeLayer_eq_step db node db1 child db2 hlt h1 h2]
    have hm := fill_step_maxlinks db db1 db2 child h1 h2
    have hroom : NumChildren (AddChild node child) ≤ db2.maxlinks := by
      have := numChildren_addChild node child
      omega
    have hres := ih hroom
    rw [hm] at hres
    exact hres
  | case4 db node hlt =>
    rw [fillNodeLayer_eq_full db node hlt]
    exact h

/-- Closed witness for the C1 theorem at a concrete state. -/
theorem fillNodeLayer_cap_preserved_witness :
    NumChildren (UnixfsNode.proto ⟨FSNodeType.TFile, none⟩ []) ≤ 2 ∧
      NumChildren (FillNodeLayer
        { source := [⟨some [1, 2], none⟩, ⟨some [3], none⟩, ⟨some [4], none⟩]
          recvdErr := none
          rawLeaves := false
          nextData := none
          maxlinks := 2
          cidPrefix := none
          blockSizeLimit := 4 }
        (UnixfsNode.proto ⟨FSNodeType.TFile, none⟩ [])).2.1 ≤ 2 :=
  ⟨by decide, fillNodeLayer_cap_preserved _ _ (by decide)⟩

/-- C10: a node already holding at least maxlinks children is returned
at once with no error, no appended child, and the lookahead buffer and
chunk source untouched. -/
theorem fillNodeLayer_full_is_noop (db : DBH) (node : UnixfsNode)
    (h : db.maxlinks ≤ NumChildren node) :
    FillNodeLayer db node = (none, node, db) := by
  rw [FillNodeLayer, if_neg (by omega)]

/-- Closed witness for the C10 theorem at a concrete state. -/
theorem fillNodeLayer_full_is_noop_witness :
    (1 : Nat) ≤ NumChildren (UnixfsNode.proto ⟨FSNodeType.TFile, none⟩
        [UnixfsNode.raw (some [9])]) ∧
      FillNodeLayer
        { source := [⟨some [1, 2], none⟩]
          recvdErr := none
          rawLeaves := false
          nextData := none
          maxlinks := 1
          cidPrefix := none
          blockSizeLimit := 4 }
        (UnixfsNode.proto ⟨FSNodeType.TFile, none⟩ [UnixfsNode.raw (some [9])]) =
      (none, UnixfsNode.proto ⟨FSNodeType.TFile, none⟩ [UnixfsNode.raw (some [9])],
        { source := [⟨some [1, 2], none⟩]
          recvdErr := none
          rawLeaves := false
          nextData := none
          maxlinks := 1
          cidPrefix := none
          blockSizeLimit := 4 }) :=
  ⟨by decide, fillNodeLayer_full_is_noop _ _ (by decide)⟩

/-- C4: NewLeaf fails with the size-limit error exactly when the data is
longer than the block size limit, in raw-leaf and wrapped mode alike;
data within the limit never trips the size check. -/
theorem newLeaf_size_check (db : DBH) (data : Option Bytes) :
    NewLeaf db data = Except.error GoErr.sizeLimitExceeded ↔
      db.blockSizeLimit < dataLen data := by
  by_cases hlen : db.blockSizeLimit < dataLen data
  · simp [NewLeaf, hlen]
  · simp only [NewLeaf, gt_iff_lt, hlen, if_false, iff_false]
    by_cases hraw : db.rawLeaves
    · rcases hp : db.cidPrefix with _ | p <;>
        simp [hraw, hp, NewRawNodeWPrefix, NewRawNode]
    · rcases hdat : data with _ | d <;> simp [hraw, hdat]

/-- C5: with raw leaves disabled, a nil chunk yields a TFile node with no
stored payload, any present chunk (empty included) yields a TRaw node
carrying exactly its bytes, and the nil and empty results differ. -/
theorem newLeaf_nonraw_nil_vs_present (db : DBH) (hraw : db.rawLeaves = false) :
    NewLeaf db none = Except.ok (UnixfsNode.proto ⟨FSNodeType.TFile, none⟩ []) ∧
    (∀ bytes : Bytes, bytes.length ≤ db.blockSizeLimit →
      NewLeaf db (some bytes) =
        Except.ok (UnixfsNode.proto ⟨FSNodeType.TRaw, some bytes⟩ [])) ∧
    NewLeaf db none ≠ NewLeaf db (some []) := by
  refine ⟨?_, ?_, ?_⟩
  · simp [NewLeaf, dataLen, hraw, NewUnixfsNode]
  · intro bytes hb
    simp only [NewLeaf, dataLen, hraw]
    rw [if_neg (by omega)]
    simp [newUnixfsBlock, SetData]
  · simp [NewLeaf, dataLen, hraw, NewUnixfsNode, newUnixfsBlock, SetData]

/-- Closed witness for the C5 theorem at a concrete state. -/
theorem newLeaf_nonraw_nil_vs_present_witness :
    ({ source := []
       recvdErr := none
       rawLeaves := false
       nextData := none
       maxlinks := 2
       cidPrefix := none
       blockSizeLimit := 4 } : DBH).rawLeaves = false ∧
      NewLeaf
        { source := []
          recvdErr := none
          rawLeaves := false
          nextData := none
          maxlinks := 2
          cidPrefix := none
          blockSizeLimit := 4 } none =
        Except.ok (UnixfsNode.proto ⟨FSNodeType.TFile, none⟩ []) :=
  ⟨rfl, (newLeaf_nonraw_nil_vs_present _ rfl).1⟩

/-
The lookahead-buffer claims: sticky errors, idempotent Done, clean end
of stream, and the chunk-discarding failure path.
-/

/-- The splitter contract assumed by the lookahead buffer: every pull
either carries a chunk or reports a non-EOF failure; end of stream is
the source running out (translated by pull into nil data with io.EOF). -/
def WFSource (src : List PullResult) : Prop :=
  ∀ r ∈ src, r.data.isSome = true ∨ (r.err ≠ none ∧ r.err ≠ some GoErr.eof)

theorem prepareNext_idem (db : DBH) (hwf : WFSource db.source) :
    prepareNext (prepareNext db) = prepareNext db := by
  by_cases hg : (db.nextData.isSome || db.recvdErr.isSome) = true
  · rw [prepareNext_busy db hg, prepareNext_busy db hg]
  · have hd : db.nextData = none := by
      rcases hx : db.nextData with _ | d
      · rfl
      · simp [hx] at hg
    have he : db.recvdErr = none := by
      rcases hx : db.recvdErr with _ | e
      · rfl
      · simp [hx] at hg
    rcases hs : db.source with _ | ⟨r, rest⟩
    · rw [prepareNext_idle_nil db hd he hs, prepareNext_idle_nil db hd he hs]
    · rw [prepareNext_idle_cons db r rest hd he hs]
      apply prepareNext_busy
      rcases hwf r (by rw [hs]; exact List.mem_cons_self r rest) with hdata | ⟨hne, hneof⟩
      · simp [hdata]
      · rcases hr : r.err with _ | e
        · exact absurd hr hne
        · have hcond : ¬ ((some e : Option GoErr) = some GoErr.eof) := by
            rw [hr] at hneof
            exact hneof
          simp [hr, hcond]

/-- C6: under the splitter contract Done is idempotent: a second Done
call returns the same boolean and the same state, a buffered chunk or
pending error survives a Done call unchanged and unconsumed, and Done
does not change what the following Next call returns. -/
theorem done_idempotent (db : DBH) (hwf : WFSource db.source) :
    Done (Done db).2 = Done db ∧
    (∀ c, db.nextData = some c → (Done db).2.nextData = some c) ∧
    (∀ e, db.recvdErr = some e → (Done db).2 = db) ∧
    Next (Done db).2 = Next db := by
  have hi := prepareNext_idem db hwf
  refine ⟨?_, ?_, ?_, ?_⟩
  · show Done (prepareNext db) = Done db
    unfold Done
    rw [hi]
  · intro c hc
    show (prepareNext db).nextData = some c
    rw [prepareNext_busy db (by simp [hc])]
    exact hc
  · intro e he
    show prepareNext db = db
    exact prepareNext_busy db (by simp [he])
  · show Next (prepareNext db) = Next db
    unfold Next
    rw [hi]

/-- Closed witness for the C6 theorem at a concrete state. -/
theorem done_idempotent_witness :
    WFSource ({ source := [⟨some [1, 2], none⟩, ⟨none, some (GoErr.other 5)⟩]
                recvdErr := none
                rawLeaves := false
                nextData := none
                maxlinks := 2
                cidPrefix := none
                blockSizeLimit := 4 } : DBH).source ∧
      Done (Done { source := [⟨some [1, 2], none⟩, ⟨none, some (GoErr.other 5)⟩]
                   recvdErr := none
                   rawLeaves := false
                   nextData := none
                   maxlinks := 2
                   cidPrefix := none
                   blockSizeLimit := 4 }).2 =
        Done { source := [⟨some [1, 2], none⟩, ⟨none, some (GoErr.other 5)⟩]
               recvdErr := none
               rawLeaves := false
               nextData := none
               maxlinks := 2
               cidPrefix := none
               blockSizeLimit := 4 } :=
  ⟨by unfold WFSource; decide, (done_idempotent _ (by unfold WFSource; decide)).1⟩

theorem done_true_state (db : DBH) (hwf : WFSource db.source)
    (h : (Done db).1 = true) :
    (prepareNext db).source = [] ∧ (prepareNext db).nextData = none ∧
      (prepareNext db).recvdErr = none := by
  have hfst := Done_fst db
  rw [h] at hfst
  have he : (prepareNext db).recvdErr = none := by
    rcases hx : (prepareNext db).recvdErr with _ | e
    · rfl
    · rw [hx] at hfst
      simp at hfst
  have hd : (prepareNext db).nextData = none := by
    rw [he] at hfst
    simp only [Option.isSome_none, Bool.false_eq_true, if_false] at hfst
    rcases hx : (prepareNext db).nextData with _ | d
    · rfl
    · rw [hx] at hfst
      simp at hfst
  refine ⟨?_, hd, he⟩
  by_cases hg : (db.nextData.isSome || db.recvdErr.isSome) = true
  · rw [prepareNext_busy db hg] at hd he
    rw [prepareNext_busy db hg]
    simp [hd, he] at hg
  · have hdn : db.nextData = none := by
      rcases hx : db.nextData with _ | d
      · rfl
      · simp [hx] at hg
    have hen : db.recvdErr = none := by
      rcases hx : db.recvdErr with _ | e
      · rfl
      · simp [hx] at hg
    rcases hs : db.source with _ | ⟨r, rest⟩
    · rw [prepareNext_idle_nil db hdn hen hs]
      exact hs
    · have hpn := prepareNext_idle_cons db r rest hdn hen hs
      have hrd : r.data = none := by
        have hx := hd
        rw [hpn] at hx
        exact hx
      rcases hwf r (by rw [hs]; exact List.mem_cons_self r rest) with hdata | ⟨hne, hneof⟩
      · rw [hrd] at hdata
        simp at hdata
      · have hrr : (prepareNext db).recvdErr = r.err := by
          rw [hpn]
          show (if r.err = some GoErr.eof then none else r.err) = r.err
          rcases hx : r.err with _ | e2
          · simp
          · rw [if_neg]
            rw [hx] at hneof
            exact hneof
        rw [he] at hrr
        exact absurd hrr.symm hne

/-- C7: end of stream is never surfaced as an error: once Done has
returned true, Next and GetNextDataNode on the resulting state return no
chunk, no node and no error, and return that state itself, so repeating
the calls arbitrarily often keeps yielding no chunk and no error. -/
theorem done_true_clean_end (db : DBH) (hwf : WFSource db.source)
    (h : (Done db).1 = true) :
    Next (Done db).2 = (none, none, (Done db).2) ∧
    GetNextDataNode (Done db).2 = (none, none, (Done db).2) := by
  obtain ⟨hs, hd, he⟩ := done_true_state db hwf h
  have hp : prepareNext (prepareNext db) = prepareNext db :=
    prepareNext_idle_nil (prepareNext db) hd he hs
  have hnext : Next (prepareNext db) = (none, none, prepareNext db) := by
    have hok := Next_of_ok (prepareNext db) (by rw [hp, he])
    rw [hp, hd, dbh_clear_self _ hd] at hok
    exact hok
  refine ⟨hnext, ?_⟩
  show GetNextDataNode (prepareNext db) = (none, none, prepareNext db)
  unfold GetNextDataNode
  rw [hnext]

/-- Closed witness for the C7 theorem at a concrete state. -/
theorem done_true_clean_end_witness :
    WFSource ({ source := []
                recvdErr := none
                rawLeaves := false
                nextData := none
                maxlinks := 2
                cidPrefix := none
                blockSizeLimit := 4 } : DBH).source ∧
      (Done { source := []
              recvdErr := none
              rawLeaves := false
              nextData := none
              maxlinks := 2
              cidPrefix := none
              blockSizeLimit := 4 }).1 = true ∧
      Next (Done { source := []
                   recvdErr := none
                   rawLeaves := false
                   nextData := none
                   maxlinks := 2
                   cidPrefix := none
                   blockSizeLimit := 4 }).2 =
        (none, none,
          (Done { source := []
                  recvdErr := none
                  rawLeaves := false
                  nextData := none
                  maxlinks := 2
                  cidPrefix := none
                  blockSizeLimit := 4 }).2) :=
  ⟨by unfold WFSource; decide, by decide,
    (done_true_clean_end _ (by unfold WFSource; decide) (by decide)).1⟩

/-- The C3 counterexample state: the source first fails with a non-EOF
error and then has a chunk ready. -/
def errorThenChunkDb : DBH :=
  { source := [⟨none, some (GoErr.other 7)⟩, ⟨some [1, 2, 3], none⟩]
    recvdErr := none
    rawLeaves := false
    nextData := none
    maxlinks := 2
    cidPrefix := none
    blockSizeLimit := 4 }

/-- C3 counterexample: the first Next call surfaces the stored failure,
but afterwards the error field still holds the failure and the second
Next call returns the same failure again instead of pulling the chunk
the source has ready — the error is not cleared after being returned
once and the buffer does not behave as refilled from scratch. -/
theorem next_error_not_cleared_cex :
    (Next errorThenChunkDb).2.1 = some (GoErr.other 7) ∧
    (Next errorThenChunkDb).2.2.recvdErr = some (GoErr.other 7) ∧
    Next (Next errorThenChunkDb).2.2 =
      (none, some (GoErr.other 7), (Next errorThenChunkDb).2.2) := by
  decide

/-- C3 amended: a stored non-EOF read failure is permanently sticky:
whenever the error field is set, Next returns no chunk together with
that error, clears only the buffered data slot, pulls nothing from the
source and never clears the error field, so every later call repeats
the failure and no new chunk is ever produced; the second part records
how a non-EOF pull failure enters the error field in the first place. -/
theorem next_error_sticky (db : DBH) (e : GoErr) :
    (db.recvdErr = some e →
      Next db = (none, some e, { db with nextData := none })) ∧
    (∀ r rest, db.recvdErr = none → db.nextData = none →
      db.source = r :: rest → r.err = some e → e ≠ GoErr.eof →
      Next db = (none, some e,
        { db with source := rest, nextData := none, recvdErr := some e })) := by
  constructor
  · intro he
    have hp : prepareNext db = db := prepareNext_busy db (by simp [he])
    have := Next_of_err db e (by rw [hp]; exact he)
    rw [hp] at this
    exact this
  · intro r rest he hd hs hre hne
    have hp := prepareNext_idle_cons db r rest hd he hs
    have hcond : ¬ (r.err = some GoErr.eof) := by
      rw [hre]
      intro hx
      injection hx with hx
      exact hne hx
    have herr : (prepareNext db).recvdErr = some e := by
      rw [hp]
      show (if r.err = some GoErr.eof then none else r.err) = some e
      rw [if_neg hcond, hre]
    have hres := Next_of_err db e herr
    rw [hp] at hres
    rw [hre] at hcond
    rw [hre, if_neg hcond] at hres
    exact hres

/-- Closed witness for the C3 amended theorem at concrete states. -/
theorem next_error_sticky_witness :
    Next { source := []
           recvdErr := some (GoErr.other 3)
           rawLeaves := false
           nextData := some [9]
           maxlinks := 2
           cidPrefix := none
           blockSizeLimit := 4 } =
      (none, some (GoErr.other 3),
        { source := []
          recvdErr := some (GoErr.other 3)
          rawLeaves := false
          nextData := none
          maxlinks := 2
          cidPrefix := none
          blockSizeLimit := 4 }) ∧
    Next errorThenChunkDb =
      (none, some (GoErr.other 7),
        { errorThenChunkDb with
            source := [⟨some [1, 2, 3], none⟩]
            nextData := none
            recvdErr := some (GoErr.other 7) }) :=
  ⟨(next_error_sticky _ (GoErr.other 3)).1 rfl,
    (next_error_sticky errorThenChunkDb (GoErr.other 7)).2
      ⟨none, some (GoErr.other 7)⟩ [⟨some [1, 2, 3], none⟩]
      rfl rfl rfl rfl (by decide)⟩

/-- C9: when one pull yields both a chunk and a non-EOF failure, the
following Next call returns the failure with no chunk and clears the
buffered slot: the chunk bytes survive in no field of the state, and
GetNextDataNode builds no leaf from them. -/
theorem next_discards_chunk_on_failure (db : DBH) (c : Bytes) (e : GoErr)
    (rest : List PullResult) (hd : db.nextData = none) (he : db.recvdErr = none)
    (hs : db.source = ⟨some c, some e⟩ :: rest) (hne : e ≠ GoErr.eof) :
    Next db = (none, some e,
      { db with source := rest, nextData := none, recvdErr := some e }) ∧
    GetNextDataNode db = (none, some e,
      { db with source := rest, nextData := none, recvdErr := some e }) := by
  have hp := prepareNext_idle_cons db ⟨some c, some e⟩ rest hd he hs
  have hcond : ¬ ((⟨some c, some e⟩ : PullResult).err = some GoErr.eof) := by
    intro hx
    injection hx with hx
    exact hne hx
  have herr : (prepareNext db).recvdErr = some e := by
    rw [hp]
    show (if (⟨some c, some e⟩ : PullResult).err = some GoErr.eof then none
      else (⟨some c, some e⟩ : PullResult).err) = some e
    rw [if_neg hcond]
  have hnext : Next db = (none, some e,
      { db with source := rest, nextData := none, recvdErr := some e }) := by
    have hres := Next_of_err db e herr
    rw [hp] at hres
    rw [if_neg hcond] at hres
    exact hres
  refine ⟨hnext, ?_⟩
  unfold GetNextDataNode
  rw [hnext]

/-- Closed witness for the C9 theorem at a concrete state. -/
theorem next_discards_chunk_on_failure_witness :
    Next { source := [⟨some [4, 5], some (GoErr.other 9)⟩, ⟨some [6], none⟩]
           recvdErr := none
           rawLeaves := false
           nextData := none
           maxlinks := 2
           cidPrefix := none
           blockSizeLimit := 4 } =
      (none, some (GoErr.other 9),
        { source := [⟨some [6], none⟩]
          recvdErr := some (GoErr.other 9)
          rawLeaves := false
          nextData := none
          maxlinks := 2
          cidPrefix := none
          blockSizeLimit := 4 }) :=
  (next_discards_chunk_on_failure _ [4, 5] (GoErr.other 9) [⟨some [6], none⟩]
    rfl rfl rfl (by decide)).1

/-
The concrete ABCDEFGHIJ example.
-/

/-- The C8 example state: block size limit 4, maxlinks 2, the ten input
bytes of ABCDEFGHIJ chunked as ABCD, EFGH, IJ. -/
def exDb8 : DBH :=
  { source := [⟨some [65, 66, 67, 68], none⟩, ⟨some [69, 70, 71, 72], none⟩,
               ⟨some [73, 74], none⟩]
    recvdErr := none
    rawLeaves := false
    nextData := none
    maxlinks := 2
    cidPrefix := none
    blockSizeLimit := 4 }

/-- The first layer-filling call of the C8 example. -/
def exRun1 : Option GoErr × UnixfsNode × DBH :=
  FillNodeLayer exDb8 (NewUnixfsNode exDb8)

/-- The second layer-filling call of the C8 example, on a fresh node. -/
def exRun2 : Option GoErr × UnixfsNode × DBH :=
  FillNodeLayer exRun1.2.2 (NewUnixfsNode exRun1.2.2)

/-- C8: the first FillNodeLayer call appends exactly the two leaves for
ABCD and EFGH and stops at the cap, the second call on a fresh node
appends exactly the leaf for IJ, and Done reports true only after the
third chunk is consumed: false before the run, false between the calls,
true after the second call. -/
theorem example_abcdefghij :
    exRun1.1 = none ∧
    exRun1.2.1 = UnixfsNode.proto ⟨FSNodeType.TFile, none⟩
      [UnixfsNode.proto ⟨FSNodeType.TRaw, some [65, 66, 67, 68]⟩ [],
       UnixfsNode.proto ⟨FSNodeType.TRaw, some [69, 70, 71, 72]⟩ []] ∧
    (Done exDb8).1 = false ∧
    (Done exRun1.2.2).1 = false ∧
    exRun2.1 = none ∧
    exRun2.2.1 = UnixfsNode.proto ⟨FSNodeType.TFile, none⟩
      [UnixfsNode.proto ⟨FSNodeType.TRaw, some [73, 74]⟩ []] ∧
    (Done exRun2.2.2).1 = true := by
  refine ⟨?_, ?_, ?_, ?_, ?_, ?_, ?_⟩ <;>
    simp [exRun1, exRun2, exDb8, FillNodeLayer, NewUnixfsNode, NumChildren, Done,
      prepareNext, pull, GetNextDataNode, Next, NewLeaf, dataLen, newUnixfsBlock,
      SetData, AddChild, NewRawNode]

/-
The round-trip claim: definitions for stream bytes and leaf payloads,
clean-state preservation, and the layer-by-layer reconstruction proof.
-/

/-- Bytes carried by one pull result (a nil slice counts as empty). -/
def chunkBytes (r : PullResult) : Bytes := r.data.getD []

/-- All bytes remaining in the unpulled part of the source. -/
def sourceBytes (src : List PullResult) : Bytes := (src.map chunkBytes).join

/-- All bytes the helper will still hand out: the buffered chunk first,
then the unpulled source. -/
def streamBytes (db : DBH) : Bytes := db.nextData.getD [] ++ sourceBytes db.source

/-- A clean stream: every pull carries a chunk and reports no error. -/
def CleanSource (src : List PullResult) : Prop :=
  ∀ r ∈ src, r.err = none ∧ r.data.isSome = true

/-- Every chunk of the source fits within the given limit. -/
def BoundedSource (limit : Nat) (src : List PullResult) : Prop :=
  ∀ r ∈ src, (chunkBytes r).length ≤ limit

/-- A helper state part-way through a clean bounded stream: no pending
error, a clean source of fitting chunks, and any buffered chunk within
the limit. -/
def CleanState (db : DBH) : Prop :=
  db.recvdErr = none ∧ CleanSource db.source ∧
    BoundedSource db.blockSizeLimit db.source ∧
    ∀ d, db.nextData = some d → d.length ≤ db.blockSizeLimit

/-- The payload a node contributes to the reconstructed file. -/
def payload : UnixfsNode → Bytes
  | UnixfsNode.raw d => d.getD []
  | UnixfsNode.proto f _ => f.fsdata.getD []

/-- The ordered children of a node. -/
def childrenOf : UnixfsNode → List UnixfsNode
  | UnixfsNode.raw _ => []
  | UnixfsNode.proto _ cs => cs

/-- Concatenated payloads of a list of leaves, in order. -/
def leafBytes (ns : List UnixfsNode) : Bytes := (ns.map payload).join

/-- Concatenated payloads of the children of a list of internal nodes,
in production order. -/
def allChildBytes (ns : List UnixfsNode) : Bytes :=
  (ns.map (fun n => leafBytes (childrenOf n))).join

/-- How many chunks remain: unpulled source elements plus the buffered
one. -/
def lookCount (db : DBH) : Nat :=
  db.source.length + (if db.nextData.isSome then 1 else 0)

theorem cleanSource_wf (src : List PullResult) (hc : CleanSource src) :
    WFSource src :=
  fun r hr => Or.inl (hc r hr).2

theorem streamBytes_prepareNext (db : DBH) :
    streamBytes (prepareNext db) = streamBytes db := by
  by_cases hg : (db.nextData.isSome || db.recvdErr.isSome) = true
  · rw [prepareNext_busy db hg]
  · have hdn : db.nextData = none := by
      rcases hx : db.nextData with _ | d
      · rfl
      · simp [hx] at hg
    have hen : db.recvdErr = none := by
      rcases hx : db.recvdErr with _ | e
      · rfl
      · simp [hx] at hg
    rcases hs : db.source with _ | ⟨r, rest⟩
    · rw [prepareNext_idle_nil db hdn hen hs]
    · rw [prepareNext_idle_cons db r rest hdn hen hs]
      unfold streamBytes sourceBytes
      rw [hs, hdn]
      simp [chunkBytes]

theorem lookCount_prepareNext (db : DBH) (hc : CleanSource db.source) :
    lookCount (prepareNext db) = lookCount db := by
  by_cases hg : (db.nextData.isSome || db.recvdErr.isSome) = true
  · rw [prepareNext_busy db hg]
  · have hdn : db.nextData = none := by
      rcases hx : db.nextData with _ | d
      · rfl
      · simp [hx] at hg
    have hen : db.recvdErr = none := by
      rcases hx : db.recvdErr with _ | e
      · rfl
      · simp [hx] at hg
    rcases hs : db.source with _ | ⟨r, rest⟩
    · rw [prepareNext_idle_nil db hdn hen hs]
    · rw [prepareNext_idle_cons db r rest hdn hen hs]
      have hr := hc r (by rw [hs]; exact List.mem_cons_self r rest)
      unfold lookCount
      rw [hs, hdn]
      simp [hr.2]

theorem cleanState_prepareNext (db : DBH) (hc : CleanState db) :
    CleanState (prepareNext db) := by
  obtain ⟨he, hcl, hb, hnd⟩ := hc
  by_cases hg : (db.nextData.isSome || db.recvdErr.isSome) = true
  · rw [prepareNext_busy db hg]
    exact ⟨he, hcl, hb, hnd⟩
  · have hdn : db.nextData = none := by
      rcases hx : db.nextData with _ | d
      · rfl
      · simp [hx] at hg
    have hen : db.recvdErr = none := by
      rcases hx : db.recvdErr with _ | e
      · rfl
      · simp [hx] at hg
    rcases hs : db.source with _ | ⟨r, rest⟩
    · rw [prepareNext_idle_nil db hdn hen hs]
      exact ⟨he, hcl, hb, hnd⟩
    · rw [prepareNext_idle_cons db r rest hdn hen hs]
      have hr := hcl r (by rw [hs]; exact List.mem_cons_self r rest)
      refine ⟨?_, ?_, ?_, ?_⟩
      · show (if r.err = some GoErr.eof then none else r.err) = none
        rw [hr.1]
        simp
      · intro r2 hr2
        exact hcl r2 (by rw [hs]; exact List.mem_cons_of_mem r hr2)
      · intro r2 hr2
        exact hb r2 (by rw [hs]; exact List.mem_cons_of_mem r hr2)
      · intro dd hdd
        have hdd2 : r.data = some dd := hdd
        have hlen := hb r (by rw [hs]; exact List.mem_cons_self r rest)
        unfold chunkBytes at hlen
        rw [hdd2] at hlen
        simpa using hlen

theorem cleanState_clear (db : DBH) (hc : CleanState db) :
    CleanState { db with nextData := none } := by
  obtain ⟨he, hcl, hb, -⟩ := hc
  exact ⟨he, hcl, hb, fun d hd => Option.noConfusion hd⟩

theorem newLeaf_payload (db : DBH) (d : Bytes) (h : d.length ≤ db.blockSizeLimit) :
    ∃ leaf, NewLeaf db (some d) = Except.ok leaf ∧ payload leaf = d := by
  unfold NewLeaf
  rw [if_neg (by simp only [dataLen, gt_iff_lt, not_lt]; omega)]
  by_cases hraw : db.rawLeaves
  · rcases hp : db.cidPrefix with _ | p <;>
      simp [hraw, hp, NewRawNodeWPrefix, NewRawNode, payload]
  · simp [hraw, payload, SetData, newUnixfsBlock]

theorem getNext_clean_some (db : DBH) (d : Bytes)
    (he : (prepareNext db).recvdErr = none)
    (hd : (prepareNext db).nextData = some d)
    (hb : d.length ≤ db.blockSizeLimit) :
    ∃ leaf, GetNextDataNode db =
      (some leaf, none, { prepareNext db with nextData := none }) ∧
      payload leaf = d := by
  have hnext := Next_of_ok db he
  rw [hd] at hnext
  obtain ⟨leaf, hok, hpay⟩ :=
    newLeaf_payload { prepareNext db with nextData := none } d (by simpa using hb)
  refine ⟨leaf, ?_, hpay⟩
  simp only [GetNextDataNode, hnext, hok]

theorem getNextDataNode_clean (db : DBH) (hc : CleanState db) :
    (∃ d leaf, (prepareNext db).nextData = some d ∧
       GetNextDataNode db =
         (some leaf, none, { prepareNext db with nextData := none }) ∧
       payload leaf = d) ∨
    ((prepareNext db).nextData = none ∧
       GetNextDataNode db =
         (none, none, { prepareNext db with nextData := none })) := by
  have hc1 := cleanState_prepareNext db hc
  obtain ⟨he, -, -, hbound⟩ := hc1
  rcases hd : (prepareNext db).nextData with _ | d
  · right
    refine ⟨rfl, ?_⟩
    have hnext := Next_of_ok db he
    rw [hd] at hnext
    simp only [GetNextDataNode, hnext]
  · left
    have hb : d.length ≤ db.blockSizeLimit := by
      have := hbound d hd
      simpa using this
    obtain ⟨leaf, hres, hpay⟩ := getNext_clean_some db d he hd hb
    exact ⟨d, leaf, rfl, hres, hpay⟩

theorem fillNodeLayer_clean_run (db : DBH) (node : UnixfsNode) :
    CleanState db → ∀ f cs, node = UnixfsNode.proto f cs →
    ∃ newLeaves db2,
      FillNodeLayer db node = (none, UnixfsNode.proto f (cs ++ newLeaves), db2) ∧
      CleanState db2 ∧
      db2.maxlinks = db.maxlinks ∧
      db2.blockSizeLimit = db.blockSizeLimit ∧
      leafBytes newLeaves ++ streamBytes db2 = streamBytes db ∧
      lookCount db = lookCount db2 + newLeaves.length ∧
      ((Done db).1 = false → cs.length < db.maxlinks → newLeaves ≠ []) := by
  induction db, node using FillNodeLayer.induct with
  | case1 db node hlt db1 h1 =>
    intro hc f cs hnode
    subst hnode
    have hdb1 : db1 = prepareNext db := done_snd_eq db db1 true h1
    refine ⟨[], db1, ?_, ?_, ?_, ?_, ?_, ?_, ?_⟩
    · rw [fillNodeLayer_eq_done db _ db1 hlt h1]
      simp
    · rw [hdb1]
      exact cleanState_prepareNext db hc
    · rw [hdb1]
      simp
    · rw [hdb1]
      simp
    · rw [hdb1, streamBytes_prepareNext]
      simp [leafBytes]
    · rw [hdb1, lookCount_prepareNext db hc.2.1]
      simp
    · intro hfalse _
      rw [h1] at hfalse
      simp at hfalse
  | case2 db node hlt db1 h1 child e db2 h2 =>
    intro hc f cs hnode
    exfalso
    have hdb1 : db1 = prepareNext db := done_snd_eq db db1 false h1
    have hc1 : CleanState db1 := hdb1 ▸ cleanState_prepareNext db hc
    rcases getNextDataNode_clean db1 hc1 with ⟨d2, leaf, -, hstep, -⟩ | ⟨-, hstep⟩ <;>
    · have hid := h2.symm.trans hstep
      injection hid with hchild hrest
      injection hrest with hee hdb2
      cases hee
  | case3 db node hlt db1 h1 child db2 h2 ih =>
    intro hc f cs hnode
    subst hnode
    have hdb1 : db1 = prepareNext db := done_snd_eq db db1 false h1
    have hc1 : CleanState db1 := hdb1 ▸ cleanState_prepareNext db hc
    have hfst := (Done_fst db).symm.trans (by rw [h1] : (Done db).1 = false)
    rw [← hdb1, hc1.1] at hfst
    simp only [Option.isSome_none, Bool.false_eq_true, if_false] at hfst
    obtain ⟨d, hd1⟩ : ∃ d, db1.nextData = some d := by
      rcases hx : db1.nextData with _ | d
      · rw [hx] at hfst
        simp at hfst
      · exact ⟨d, rfl⟩
    have hpp : prepareNext db1 = db1 := prepareNext_busy db1 (by simp [hd1])
    rcases getNextDataNode_clean db1 hc1 with ⟨d2, leaf, hd2, hstep, hpay⟩ | ⟨hd2, hstep⟩
    swap
    · rw [hpp, hd1] at hd2
      cases hd2
    · rw [hpp] at hd2 hstep
      have hid := h2.symm.trans hstep
      injection hid with hchild hrest
      injection hrest with hee hdb2
      subst hchild
      have hc2 : CleanState db2 := by
        rw [hdb2]
        exact cleanState_clear db1 hc1
      obtain ⟨nl, db3, hrun3, hc3, hml3, hbs3, hstream3, hlook3, -⟩ :=
        ih hc2 f (cs ++ [leaf]) (by simp [AddChild])
      refine ⟨leaf :: nl, db3, ?_, hc3, ?_, ?_, ?_, ?_, ?_⟩
      · rw [fillNodeLayer_eq_step db _ db1 (some leaf) db2 hlt h1 h2, hrun3]
        simp [List.append_assoc]
      · rw [hml3, hdb2, hdb1]
        simp
      · rw [hbs3, hdb2, hdb1]
        simp
      · have hsdb : streamBytes db = streamBytes db1 := by
          rw [hdb1, streamBytes_prepareNext]
        have hsplit : streamBytes db1 = d2 ++ streamBytes db2 := by
          rw [hdb2]
          unfold streamBytes
          rw [hd2]
          simp
        rw [hsdb, hsplit, ← hstream3]
        simp [leafBytes, hpay]
      · have hlc : lookCount db = lookCount db1 := by
          rw [hdb1, lookCount_prepareNext db hc.2.1]
        have hlc2 : lookCount db1 = lookCount db2 + 1 := by
          rw [hdb2]
          unfold lookCount
          rw [hd2]
          simp
        rw [hlc, hlc2, hlook3]
        simp
        omega
      · intro _ _
        simp
  | case4 db node hlt =>
    intro hc f cs hnode
    subst hnode
    refine ⟨[], db, ?_, hc, rfl, rfl, ?_, ?_, ?_⟩
    · rw [fillNodeLayer_eq_full db _ hlt]
      simp
    · simp [leafBytes]
    · simp
    · intro _ hcs
      exact absurd hcs (by simpa [NumChildren] using hlt)

/-- A layout driver standing in for the caller of FillNodeLayer: while
the stream is not done, fill one fresh internal node per round and
collect the produced nodes; a fuel bound limits the rounds. -/
def buildLayers : Nat → DBH → List UnixfsNode × DBH
  | 0, db => ([], db)
  | Nat.succ fuel, db =>
    match Done db with
    | (true, db1) => ([], db1)
    | (false, db1) =>
      match FillNodeLayer db1 (NewUnixfsNode db1) with
      | (some e, node, db2) => ([node], db2)
      | (none, node, db2) =>
        let rest := buildLayers fuel db2
        (node :: rest.1, rest.2)

theorem allChildBytes_cons (n : UnixfsNode) (ns : List UnixfsNode) :
    allChildBytes (n :: ns) = leafBytes (childrenOf n) ++ allChildBytes ns := rfl

theorem buildLayers_clean (fuel : Nat) : ∀ db : DBH, CleanState db →
    0 < db.maxlinks → lookCount db < fuel →
    allChildBytes (buildLayers fuel db).1 = streamBytes db := by
  induction fuel with
  | zero =>
    intro db _ _ hf
    omega
  | succ fuel ih =>
    intro db hc hml hf
    rcases hdone : Done db with ⟨b, db1⟩
    have hdb1 : db1 = prepareNext db := done_snd_eq db db1 b hdone
    cases b with
    | true =>
      have hrun : buildLayers (fuel + 1) db = ([], db1) := by
        simp only [buildLayers, hdone]
      rw [hrun]
      obtain ⟨hs, hd, he⟩ :=
        done_true_state db (cleanSource_wf _ hc.2.1) (by rw [hdone])
      have hsb : streamBytes db = [] := by
        rw [← streamBytes_prepareNext db]
        unfold streamBytes sourceBytes
        rw [hs, hd]
        simp
      rw [hsb]
      simp [allChildBytes]
    | false =>
      have hc1 : CleanState db1 := hdb1 ▸ cleanState_prepareNext db hc
      obtain ⟨newLeaves, db2, hrun, hc2, hml2, hbs2, hstream, hlook, hne⟩ :=
        fillNodeLayer_clean_run db1 (NewUnixfsNode db1) hc1
          ⟨FSNodeType.TFile, none⟩ [] rfl
      have hpp : prepareNext db1 = db1 := by
        rw [hdb1]
        exact prepareNext_idem db (cleanSource_wf _ hc.2.1)
      have hfd1 : (Done db1).1 = false := by
        have hform := Done_fst db1
        rw [hpp] at hform
        have hform0 := (Done_fst db).symm.trans (by rw [hdone] : (Done db).1 = false)
        rw [← hdb1] at hform0
        rw [hform]
        exact hform0
      have hml1 : db1.maxlinks = db.maxlinks := by
        rw [hdb1]
        simp
      have hleaves : newLeaves ≠ [] := hne hfd1 (by simpa [hml1] using hml)
      have hlen1 : 0 < newLeaves.length := by
        rcases newLeaves with _ | ⟨x, xs⟩
        · exact absurd rfl hleaves
        · simp
      have hlc1 : lookCount db1 = lookCount db := by
        rw [hdb1, lookCount_prepareNext db hc.2.1]
      have hstep : buildLayers (fuel + 1) db =
          (UnixfsNode.proto ⟨FSNodeType.TFile, none⟩ ([] ++ newLeaves) ::
            (buildLayers fuel db2).1, (buildLayers fuel db2).2) := by
        simp only [buildLayers, hdone, hrun]
      rw [hstep]
      have hih := ih db2 hc2 (by omega) (by omega)
      rw [allChildBytes_cons, hih]
      show leafBytes newLeaves ++ streamBytes db2 = streamBytes db
      rw [hstream, hdb1, streamBytes_prepareNext]

/-- C2: for an input stream delivered as chunks that each fit the block
size limit, concatenating the byte payloads of all leaf nodes produced
across successive FillNodeLayer calls, in child-append order, yields
exactly the original stream bytes. -/
theorem fillNodeLayer_stream_roundtrip (db : DBH) (fuel : Nat)
    (hd : db.nextData = none) (he : db.recvdErr = none)
    (hclean : CleanSource db.source)
    (hbound : BoundedSource db.blockSizeLimit db.source)
    (hml : 0 < db.maxlinks) (hfuel : db.source.length < fuel) :
    allChildBytes (buildLayers fuel db).1 = sourceBytes db.source := by
  have hc : CleanState db := ⟨he, hclean, hbound, by
    intro d hx
    rw [hd] at hx
    exact Option.noConfusion hx⟩
  have hlc : lookCount db < fuel := by
    unfold lookCount
    rw [hd]
    simpa using hfuel
  have hres := buildLayers_clean fuel db hc hml hlc
  rw [hres]
  unfold streamBytes
  rw [hd]
  simp

/-- The C2 witness stream: two clean chunks, maxlinks 1. -/
def rtDb : DBH :=
  { source := [⟨some [1, 2], none⟩, ⟨some [3], none⟩]
    recvdErr := none
    rawLeaves := false
    nextData := none
    maxlinks := 1
    cidPrefix := none
    blockSizeLimit := 4 }

/-- Closed witness for the C2 theorem at a concrete stream. -/
theorem fillNodeLayer_stream_roundtrip_witness :
    allChildBytes (buildLayers 3 rtDb).1 = sourceBytes rtDb.source :=
  fillNodeLayer_stream_roundtrip rtDb 3 rfl rfl
    (by unfold CleanSource; decide) (by unfold BoundedSource; decide)
    (by decide) (by decide)

end DagBuilder
